import Mathlib

/-!
Shallow embedding of the Nuance repository core:
`nuance/processing/llm.py` (LLM service `query` / `_call_model`, the
`strip_thinking` response sanitizer, the async singleton `get_instance`)
and `nuance/processing/topic_tagger.py` (`TopicTagger.process`).

Python strings are modelled as Lean `String` / `List Char`; fallible
collaborators (HTTP client, constitution store, discovery strategy,
prompt-template `format`) are modelled as `Except String`-returning
oracles passed in explicitly.
-/

/-! ### Response sanitizer: `strip_thinking` (llm.py lines 137-141)

`re.sub(r"<think>.*?</think>", "", text, flags=re.DOTALL).strip()`:
scan left to right; at each position, if the open marker matches, the
non-greedy body ends at the first later occurrence of the close marker;
the whole delimited span (markers included) is deleted and scanning
resumes after it; an open marker with no later close marker does not
match.  Finally Python `str.strip()` trims whitespace at both ends. -/

def openTag : List Char := "<think>".data

def closeTag : List Char := "</think>".data

/-- Drop characters up to and including the first occurrence of
`closeTag`; `none` when no occurrence exists.  This is the non-greedy
`.*?</think>` search. -/
def dropAfterClose : List Char → Option (List Char)
  | [] => none
  | c :: cs =>
    if closeTag.isPrefixOf (c :: cs) then some (List.drop closeTag.length (c :: cs))
    else dropAfterClose cs

/-- One left-to-right removal pass of `re.sub(r"<think>.*?</think>", "", ·)`
with DOTALL semantics, written with explicit fuel so that the recursion is
structural (the fuel never runs out when it is at least the length of the
input, since every recursive call strictly shrinks the list). -/
def removeThinkFuel : Nat → List Char → List Char
  | 0, l => l
  | _ + 1, [] => []
  | fuel + 1, c :: cs =>
    if openTag.isPrefixOf (c :: cs) then
      match dropAfterClose (List.drop openTag.length (c :: cs)) with
      | some rest => removeThinkFuel fuel rest
      | none => c :: removeThinkFuel fuel cs
    else c :: removeThinkFuel fuel cs

def removeThink (l : List Char) : List Char := removeThinkFuel l.length l

/-- Python whitespace stripped by `str.strip()` (ASCII range). -/
def pySpace (c : Char) : Bool :=
  c = ' ' || c = '\t' || c = '\n' || c = '\r' || c = '\x0b' || c = '\x0c'

/-- Python `str.strip()` on the character list. -/
def pyStripList (l : List Char) : List Char :=
  ((l.dropWhile pySpace).reverse.dropWhile pySpace).reverse

/-- Python `str.strip()`. -/
def pyStrip (s : String) : String := String.mk (pyStripList s.data)

/-- Python `str.lower()` (ASCII case mapping, which covers every input the
classifier compares against). -/
def pyLowerList (l : List Char) : List Char := l.map Char.toLower

/-- `strip_thinking` from llm.py: remove the delimited reasoning sections,
then strip surrounding whitespace. -/
def strip_thinking (text : String) : String :=
  String.mk (pyStripList (removeThink text.data))

/-- Executable substring containment test (used to state the no-marker
hypothesis of the sanitizer claims). -/
def containsSub (pat : List Char) : List Char → Bool
  | [] => pat.isPrefixOf []
  | c :: cs => pat.isPrefixOf (c :: cs) || containsSub pat cs

/-! ### Data model (nuance/models, as used by topic_tagger.py) -/

inductive PlatformType where
  | TWITTER
  | OTHER
deriving DecidableEq, Repr

/-- The `extra_data` dictionary of a post; only the two keys the tagger
reads are modelled, each `Option` because `dict.get` tolerates absence. -/
structure ExtraData where
  is_quote_tweet : Option Bool
  quoted_status_id : Option String
deriving DecidableEq, Repr

structure Post where
  post_id : String
  content : String
  platform_type : PlatformType
  extra_data : ExtraData
  topics : List String
deriving DecidableEq, Repr

/-- The post returned by the discovery collaborator; only `account_id`
is read. -/
structure QuotedPost where
  account_id : String
deriving DecidableEq, Repr

inductive ProcessingStatus where
  | ACCEPTED
  | ERROR
deriving DecidableEq, Repr

/-- `ProcessingResult` as built by the tagger: `details` models the
`topics`/`topic_count` payload of the ACCEPTED branch, `reason` the
message of the ERROR branch. -/
structure ProcessingResult where
  status : ProcessingStatus
  output : Post
  processor_name : String
  details : Option (List String × Nat)
  reason : Option String
deriving DecidableEq, Repr

/-! ### Topic tagger (topic_tagger.py `TopicTagger.process`)

External collaborators are oracles: the constitution store's
`get_topic_prompts` (an insertion-ordered association list, mirroring a
Python dict's iteration order, whose values are fallible
prompt-template formatters standing for `template.format(tweet_text=...)`),
the LLM call `query_llm` (already issued with temperature 0.0), and the
discovery strategy's `get_post`.  Each `Except.error` stands for a raised
exception. -/

/-- A prompt template: `format` applied to the post content, fallible. -/
abbrev Template := String → Except String String

structure TaggerDeps where
  get_topic_prompts : Except String (List (String × Template))
  query_llm : String → Except String String
  get_post : String → Except String QuotedPost
  nuance_account_id : String

/-- Line 51 of topic_tagger.py applied to the raw LLM output:
`strip_thinking(raw).strip().lower() == "true"`. -/
def isRelevant (raw : String) : Bool :=
  pyLowerList (pyStripList (strip_thinking raw).data) == "true".data

/-- The per-topic loop (lines 43-57): for each `(topic, template)` pair in
order, format the prompt, query the LLM, and append the topic when the
sanitized response classifies as relevant.  Any raised exception aborts
the loop and propagates. -/
def tagTopics (llm : String → Except String String) (content : String) :
    List (String × Template) → Except String (List String)
  | [] => Except.ok []
  | (topic, tmpl) :: rest => do
    let prompt ← tmpl content
    let resp ← llm prompt
    let tail ← tagTopics llm content rest
    if isRelevant resp then Except.ok (topic :: tail) else Except.ok tail

/-- The `nuance_sharing` special case (lines 61-83): on Twitter posts that
quote another post, look the quoted post up and append the sentinel topic
when it comes from the Nuance account.  The inner `try` block means a
failing lookup leaves the topic list unchanged. -/
def specialTopics (get_post : String → Except String QuotedPost)
    (nuanceId : String) (post : Post) (topics : List String) : List String :=
  if post.platform_type = PlatformType.TWITTER then
    if post.extra_data.is_quote_tweet.getD false then
      match post.extra_data.quoted_status_id with
      | some qid =>
        if qid = "" then topics
        else
          match get_post qid with
          | Except.ok quoted =>
            if quoted.account_id = nuanceId then topics ++ ["nuance_sharing"]
            else topics
          | Except.error _ => topics
      | none => topics
    else topics
  else topics

/-- The body of `process` inside the top-level `try` (lines 30-95). -/
def processBody (deps : TaggerDeps) (post : Post) :
    Except String ProcessingResult := do
  let topic_prompts ← deps.get_topic_prompts
  let identified ← tagTopics deps.query_llm post.content topic_prompts
  let identified := specialTopics deps.get_post deps.nuance_account_id post identified
  let tagged : Post := { post with topics := identified }
  Except.ok
    { status := ProcessingStatus.ACCEPTED
      output := tagged
      processor_name := "topic_tagger"
      details := some (identified, identified.length)
      reason := none }

/-- `TopicTagger.process` (lines 20-104): the top-level `except` converts
any escaping exception into an ERROR result carrying the original post. -/
def process (deps : TaggerDeps) (post : Post) : ProcessingResult :=
  match processBody deps post with
  | Except.ok r => r
  | Except.error e =>
    { status := ProcessingStatus.ERROR
      output := post
      processor_name := "topic_tagger"
      details := none
      reason := some ("Error tagging topics: " ++ e) }

/-! ### LLM service (`LLMService.query` / `_call_model`, llm.py lines 41-110) -/

structure ChatMessage where
  role : String
  content : String
deriving DecidableEq, Repr

/-- The JSON body sent by `_call_model` (lines 93-100). -/
structure LLMPayload where
  model : String
  messages : List ChatMessage
  stream : Bool
  max_tokens : Nat
  temperature : Rat
  top_p : Rat
deriving DecidableEq, Repr

structure LLMChoice where
  message : ChatMessage
deriving DecidableEq, Repr

/-- The parsed response body, as far as `_call_model` reads it. -/
structure LLMData where
  choices : List LLMChoice
deriving DecidableEq, Repr

def mkPayload (model prompt : String) (max_tokens : Nat)
    (temperature top_p : Rat) : LLMPayload :=
  { model := model
    messages := [{ role := "user", content := prompt }]
    stream := false
    max_tokens := max_tokens
    temperature := temperature
    top_p := top_p }

/-- `_call_model` (lines 74-110): one call to the HTTP retry client, then
`data["choices"][0]["message"]["content"]`; an empty `choices` list raises
an IndexError, modelled as an error value. -/
def call_model (http : LLMPayload → Except String LLMData)
    (prompt model : String) (max_tokens : Nat) (temperature top_p : Rat) :
    Except String String := do
  let data ← http (mkPayload model prompt max_tokens temperature top_p)
  match data.choices with
  | choice :: _ => Except.ok choice.message.content
  | [] => Except.error "IndexError: list index out of range"

/-- Python `model or self.model_name` (line 67): `None` and the empty
string both resolve to the default. -/
def resolveModel (model : Option String) (model_name : String) : String :=
  match model with
  | some s => if s = "" then model_name else s
  | none => model_name

/-- `LLMService.query` (lines 41-72), with the service's `model_name`
attribute and the HTTP retry client passed explicitly. -/
def query (http : LLMPayload → Except String LLMData) (model_name : String)
    (prompt : String) (model : Option String) (max_tokens : Nat)
    (temperature top_p : Rat) : Except String String :=
  call_model http prompt (resolveModel model model_name) max_tokens temperature top_p

/-! ### Singleton lifecycle (`LLMService.get_instance`, llm.py lines 26-34)

Cooperative-concurrency model of `async with cls._lock: if cls._instance
is None: ... cls._instance = instance; return cls._instance` for any
number of concurrent first-time callers.  Each caller `i` walks through
program counters `start` (before the lock), `locked` (lock acquired,
about to read `_instance`), `initing` (observed `None`, running
`_initialize`, still holding the lock) and `done v` (returned instance
`v`).  An instance is identified by the index of the caller that
constructed it, so two distinct initializations would be observable as
distinct values.  `initCount` counts executions of the one-time
initialization. -/

namespace Singleton

inductive PC where
  | start
  | locked
  | initing
  | done (res : Nat)
deriving DecidableEq, Repr

structure Config where
  pcs : List PC
  lockHeld : Bool
  inst : Option Nat
  initCount : Nat
deriving DecidableEq, Repr

/-- Initial state: `n` callers about to call `get_instance`, lock free,
`_instance is None`. -/
def start (n : Nat) : Config :=
  { pcs := List.replicate n PC.start, lockHeld := false, inst := none, initCount := 0 }

/-- One scheduler step: any enabled caller may run.  Acquiring the lock
requires it to be free; reading `_instance` and initializing happen under
the lock; both exit paths release the lock and return the published
instance. -/
inductive Step : Config → Config → Prop where
  | acquire (c : Config) (i : Nat)
      (h : c.pcs.get? i = some PC.start) (hl : c.lockHeld = false) :
      Step c { pcs := c.pcs.set i PC.locked, lockHeld := true,
               inst := c.inst, initCount := c.initCount }
  | hit (c : Config) (i v : Nat)
      (h : c.pcs.get? i = some PC.locked) (hv : c.inst = some v) :
      Step c { pcs := c.pcs.set i (PC.done v), lockHeld := false,
               inst := c.inst, initCount := c.initCount }
  | miss (c : Config) (i : Nat)
      (h : c.pcs.get? i = some PC.locked) (hv : c.inst = none) :
      Step c { pcs := c.pcs.set i PC.initing, lockHeld := c.lockHeld,
               inst := c.inst, initCount := c.initCount }
  | create (c : Config) (i : Nat)
      (h : c.pcs.get? i = some PC.initing) :
      Step c { pcs := c.pcs.set i (PC.done i), lockHeld := false,
               inst := some i, initCount := c.initCount + 1 }

/-- Reflexive-transitive closure of `Step`: the executions of the
scheduler. -/
inductive Reaches : Config → Config → Prop where
  | refl (c : Config) : Reaches c c
  | tail (a b c : Config) : Reaches a b → Step b c → Reaches a c

/-- Caller `i` currently holds the lock (critical section of
`get_instance`). -/
def Owner (c : Config) (i : Nat) : Prop :=
  c.pcs.get? i = some PC.locked ∨ c.pcs.get? i = some PC.initing

/-- Inductive invariant of the lifecycle. -/
structure Inv (c : Config) : Prop where
  count_inst : c.initCount = (if c.inst.isSome then 1 else 0)
  done_inst : ∀ i v, c.pcs.get? i = some (PC.done v) → c.inst = some v
  owner_lock : ∀ i, Owner c i → c.lockHeld = true
  owner_unique : ∀ i j, Owner c i → Owner c j → i = j
  initing_none : ∀ i, c.pcs.get? i = some PC.initing → c.inst = none

end Singleton

/-! ### Derived characterizations used in theorem statements -/

/-- The topic list a successful run of the per-topic loop produces: the
mapping restricted, in iteration order, to the topics whose response
classifies as relevant. -/
def relevantTopics (llm : String → Except String String) (content : String)
    (prompts : List (String × Template)) : List String :=
  prompts.filterMap fun e =>
    match e.2 content with
    | Except.ok p =>
      match llm p with
      | Except.ok raw => if isRelevant raw then some e.1 else none
      | Except.error _ => none
    | Except.error _ => none

/-- The structural quote-relationship condition of the special case: a
Twitter quote tweet whose quoted post is fetched successfully and comes
from the Nuance account. -/
def quoteMatch (get_post : String → Except String QuotedPost)
    (nuanceId : String) (post : Post) : Bool :=
  post.platform_type == PlatformType.TWITTER &&
  post.extra_data.is_quote_tweet.getD false &&
  (match post.extra_data.quoted_status_id with
   | some qid =>
     !(qid == "") &&
     (match get_post qid with
      | Except.ok quoted => quoted.account_id == nuanceId
      | Except.error _ => false)
   | none => false)

/-! ### Concrete fixtures used by witness theorems -/

/-- A non-Twitter post with empty extra data. -/
def plainPost : Post :=
  { post_id := "p1", content := "hello world", platform_type := PlatformType.OTHER,
    extra_data := { is_quote_tweet := none, quoted_status_id := none },
    topics := ["old"] }

/-- Dependencies with a single-topic mapping whose LLM answers `" True\n"`. -/
def oneTopicDeps : TaggerDeps :=
  { get_topic_prompts :=
      Except.ok [("science", fun c => Except.ok ("about science? " ++ c))]
    query_llm := fun _ => Except.ok " True\n"
    get_post := fun _ => Except.error "no network"
    nuance_account_id := "nuance-acct" }

/-- Dependencies with a three-topic mapping where A and C are relevant. -/
def threeTopicDeps : TaggerDeps :=
  { get_topic_prompts := Except.ok
      [("A", fun _ => Except.ok "pa"),
       ("B", fun _ => Except.ok "pb"),
       ("C", fun _ => Except.ok "pc")]
    query_llm := fun p => Except.ok (if p = "pb" then "false" else "true")
    get_post := fun _ => Except.error "no network"
    nuance_account_id := "nuance-acct" }

/-- A Twitter quote tweet with a quoted-status id. -/
def quotePost : Post :=
  { post_id := "p2", content := "hello world", platform_type := PlatformType.TWITTER,
    extra_data := { is_quote_tweet := some true, quoted_status_id := some "123" },
    topics := [] }

/-- Dependencies whose prompt-mapping fetch raises. -/
def failingDeps : TaggerDeps :=
  { get_topic_prompts := Except.error "constitution fetch failed"
    query_llm := fun _ => Except.ok "true"
    get_post := fun _ => Except.error "no network"
    nuance_account_id := "nuance-acct" }

/-- Dependencies with an empty prompt mapping. -/
def emptyDeps : TaggerDeps :=
  { get_topic_prompts := Except.ok []
    query_llm := fun _ => Except.ok "true"
    get_post := fun _ => Except.error "no network"
    nuance_account_id := "nuance-acct" }

/-- An HTTP client that answers every request with one completion choice. -/
def okHttp : LLMPayload → Except String LLMData :=
  fun _ => Except.ok { choices := [{ message := { role := "assistant", content := "hi" } }] }

/-- An HTTP client whose every request terminally fails. -/
def errHttp : LLMPayload → Except String LLMData :=
  fun _ => Except.error "boom"

/-- The final configuration of a two-caller execution of `get_instance`:
caller 0 initialized, caller 1 reused the instance. -/
def twoCallerFinal : Singleton.Config :=
  { pcs := [Singleton.PC.done 0, Singleton.PC.done 0], lockHeld := false,
    inst := some 0, initCount := 1 }

/-! ### Helper lemmas -/

theorem dropAfterClose_length :
    ∀ (l r : List Char), dropAfterClose l = some r → r.length < l.length := by
  intro l
  induction l with
  | nil => intro r h; simp [dropAfterClose] at h
  | cons c cs ih =>
    intro r h
    by_cases hp : closeTag.isPrefixOf (c :: cs)
    · simp [dropAfterClose, hp] at h
      subst h
      simp [List.length_drop, closeTag]
      omega
    · simp [dropAfterClose, hp] at h
      exact Nat.lt_trans (ih r h) (by simp)

theorem removeThinkFuel_of_not_contains :
    ∀ (fuel : Nat) (l : List Char), containsSub openTag l = false →
      removeThinkFuel fuel l = l := by
  intro fuel
  induction fuel with
  | zero => intro l _; rfl
  | succ n ih =>
    intro l h
    cases l with
    | nil => rfl
    | cons c cs =>
      simp [containsSub] at h
      simp [removeThinkFuel, h.1, ih cs h.2]

theorem removeThink_of_not_contains (l : List Char)
    (h : containsSub openTag l = false) : removeThink l = l :=
  removeThinkFuel_of_not_contains l.length l h

theorem dropWhile_dropWhile (p : α → Bool) :
    ∀ l : List α, List.dropWhile p (List.dropWhile p l) = List.dropWhile p l := by
  intro l
  induction l with
  | nil => rfl
  | cons c cs ih =>
    by_cases h : p c
    · simp [List.dropWhile_cons, h, ih]
    · simp [List.dropWhile_cons, h]

theorem head?_dropWhile (p : α → Bool) :
    ∀ (l : List α) (x : α), (List.dropWhile p l).head? = some x → p x = false := by
  intro l
  induction l with
  | nil => intro x h; simp [List.dropWhile] at h
  | cons c cs ih =>
    intro x h
    by_cases hc : p c
    · exact ih x (by simpa [List.dropWhile_cons, hc] using h)
    · simp [List.dropWhile_cons, hc] at h
      subst h
      simpa using hc

theorem dropWhile_decomp (p : α → Bool) :
    ∀ l : List α, ∃ t, l = t ++ List.dropWhile p l := by
  intro l
  induction l with
  | nil => exact ⟨[], rfl⟩
  | cons c cs ih =>
    by_cases h : p c
    · obtain ⟨t, ht⟩ := ih
      exact ⟨c :: t, by simpa [List.dropWhile_cons, h] using congrArg (c :: ·) ht⟩
    · exact ⟨[], by simp [List.dropWhile_cons, h]⟩

theorem dropWhile_eq_self (p : α → Bool) (l : List α)
    (h : ∀ x, l.head? = some x → p x = false) : List.dropWhile p l = l := by
  cases l with
  | nil => rfl
  | cons c cs => simp [List.dropWhile_cons, h c rfl]

theorem pyStripList_idem (l : List Char) :
    pyStripList (pyStripList l) = pyStripList l := by
  have hb : pyStripList l = ((l.dropWhile pySpace).reverse.dropWhile pySpace).reverse := rfl
  obtain ⟨t, ht⟩ := dropWhile_decomp pySpace (l.dropWhile pySpace).reverse
  have ha2 : l.dropWhile pySpace =
      ((l.dropWhile pySpace).reverse.dropWhile pySpace).reverse ++ t.reverse := by
    have h2 := congrArg List.reverse ht
    simpa [List.reverse_append] using h2
  have hbrev : ∀ x,
      ((l.dropWhile pySpace).reverse.dropWhile pySpace).reverse.head? = some x →
      pySpace x = false := by
    intro x hx
    apply head?_dropWhile pySpace l x
    cases hbr : ((l.dropWhile pySpace).reverse.dropWhile pySpace).reverse with
    | nil => rw [hbr] at hx; simp at hx
    | cons y ys =>
      rw [hbr] at hx
      simp at hx
      rw [ha2, hbr]
      simp [hx]
  rw [hb]
  unfold pyStripList
  rw [dropWhile_eq_self pySpace _ hbrev, List.reverse_reverse,
    dropWhile_dropWhile]

theorem except_ok_bind (a : α) (f : α → Except ε β) :
    (Except.ok a >>= f) = f a := rfl

theorem except_error_bind (e : ε) (f : α → Except ε β) :
    ((Except.error e : Except ε α) >>= f) = Except.error e := rfl

theorem tagTopics_ok (llm : String → Except String String) (content : String) :
    ∀ (prompts : List (String × Template)) (ts : List String),
      tagTopics llm content prompts = Except.ok ts →
      ts = relevantTopics llm content prompts := by
  intro prompts
  induction prompts with
  | nil =>
    intro ts h
    simp [tagTopics] at h
    simp [relevantTopics, ← h]
  | cons e rest ih =>
    intro ts h
    obtain ⟨topic, tmpl⟩ := e
    simp only [tagTopics] at h
    cases hp : tmpl content with
    | error err => rw [hp, except_error_bind] at h; exact absurd h (by simp)
    | ok prompt =>
      rw [hp, except_ok_bind] at h
      cases hr : llm prompt with
      | error err => rw [hr, except_error_bind] at h; exact absurd h (by simp)
      | ok raw =>
        rw [hr, except_ok_bind] at h
        cases ht : tagTopics llm content rest with
        | error err => rw [ht, except_error_bind] at h; exact absurd h (by simp)
        | ok tail =>
          rw [ht, except_ok_bind] at h
          have htail := ih tail ht
          simp only [relevantTopics] at htail
          by_cases hrel : isRelevant raw
          · rw [if_pos hrel] at h
            simp at h
            subst h
            simp only [relevantTopics, List.filterMap_cons, hp, hr, if_pos hrel]
            simp [htail]
          · rw [if_neg hrel] at h
            simp at h
            subst h
            simp only [relevantTopics, List.filterMap_cons, hp, hr, if_neg hrel]
            simp [htail]

theorem specialTopics_eq (gp : String → Except String QuotedPost)
    (nid : String) (post : Post) (ts : List String) :
    specialTopics gp nid post ts =
      ts ++ (if quoteMatch gp nid post then ["nuance_sharing"] else []) := by
  unfold specialTopics quoteMatch
  by_cases h1 : post.platform_type = PlatformType.TWITTER
  · by_cases h2 : post.extra_data.is_quote_tweet.getD false
    · cases h3 : post.extra_data.quoted_status_id with
      | none => simp [h1, h2, h3]
      | some qid =>
        by_cases h4 : qid = ""
        · simp [h1, h2, h3, h4]
        · cases h5 : gp qid with
          | error err => simp [h1, h2, h3, h4, h5]
          | ok quoted =>
            by_cases h6 : quoted.account_id = nid
            · simp [h1, h2, h3, h4, h5, h6]
            · simp [h1, h2, h3, h4, h5, h6]
    · simp [h1, h2]
  · simp [h1]

theorem processBody_eq (deps : TaggerDeps) (post : Post)
    (prompts : List (String × Template)) (ts : List String)
    (hm : deps.get_topic_prompts = Except.ok prompts)
    (hl : tagTopics deps.query_llm post.content prompts = Except.ok ts) :
    processBody deps post = Except.ok
      { status := ProcessingStatus.ACCEPTED
        output := { post with
          topics := specialTopics deps.get_post deps.nuance_account_id post ts }
        processor_name := "topic_tagger"
        details := some (specialTopics deps.get_post deps.nuance_account_id post ts,
          (specialTopics deps.get_post deps.nuance_account_id post ts).length)
        reason := none } := by
  simp only [processBody, hm, hl, except_ok_bind]

theorem processBody_status (deps : TaggerDeps) (post : Post)
    (r : ProcessingResult) (h : processBody deps post = Except.ok r) :
    r.status = ProcessingStatus.ACCEPTED := by
  simp only [processBody] at h
  cases hm : deps.get_topic_prompts with
  | error e => rw [hm, except_error_bind] at h; exact absurd h (by simp)
  | ok prompts =>
    rw [hm, except_ok_bind] at h
    cases hl : tagTopics deps.query_llm post.content prompts with
    | error e => rw [hl, except_error_bind] at h; exact absurd h (by simp)
    | ok ts =>
      rw [hl, except_ok_bind] at h
      simp at h
      rw [← h]

namespace Singleton

theorem inv_start (n : Nat) : Inv (start n) := by
  constructor
  · rfl
  · intro i v h
    exact absurd (List.eq_of_mem_replicate (List.get?_mem h)) (by simp)
  · intro i hi
    rcases hi with h | h <;>
      exact absurd (List.eq_of_mem_replicate (List.get?_mem h)) (by simp)
  · intro i j hi _
    rcases hi with h | h <;>
      exact absurd (List.eq_of_mem_replicate (List.get?_mem h)) (by simp)
  · intro i h
    exact absurd (List.eq_of_mem_replicate (List.get?_mem h)) (by simp)

/-- Reading an index of `l.set i x`: either it is position `i` holding the
new value, or it is untouched. -/
theorem get?_set_cases (l : List PC) (i j : Nat) (x p : PC)
    (h : (l.set i x).get? j = some p) :
    (j = i ∧ p = x) ∨ (j ≠ i ∧ l.get? j = some p) := by
  by_cases hj : j = i
  · subst hj
    rw [List.get?_set_eq] at h
    cases hl : l.get? j with
    | none => rw [hl] at h; simp at h
    | some q => rw [hl] at h; simp at h; exact Or.inl ⟨rfl, h.symm⟩
  · exact Or.inr ⟨hj, by rwa [List.get?_set_ne x l (Ne.symm hj)] at h⟩

theorem inv_step {a b : Config} (hi : Inv a) (hs : Step a b) : Inv b := by
  cases hs with
  | acquire i h hl =>
    have hno : ∀ j, ¬ Owner a j := by
      intro j hj
      have hlk := hi.owner_lock j hj
      rw [hl] at hlk
      exact Bool.noConfusion hlk
    constructor
    · exact hi.count_inst
    · intro j v hj
      rcases get?_set_cases _ _ _ _ _ hj with ⟨_, hx⟩ | ⟨_, hx⟩
      · exact absurd hx (by simp)
      · exact hi.done_inst j v hx
    · intro j _
      rfl
    · intro j k hj hk
      have hji : j = i := by
        rcases hj with hx | hx <;>
          rcases get?_set_cases _ _ _ _ _ hx with ⟨hj2, _⟩ | ⟨hne, hx2⟩ <;>
            first
              | exact hj2
              | exact absurd (Or.inl hx2) (hno j)
              | exact absurd (Or.inr hx2) (hno j)
      have hki : k = i := by
        rcases hk with hx | hx <;>
          rcases get?_set_cases _ _ _ _ _ hx with ⟨hk2, _⟩ | ⟨hne, hx2⟩ <;>
            first
              | exact hk2
              | exact absurd (Or.inl hx2) (hno k)
              | exact absurd (Or.inr hx2) (hno k)
      exact hji.trans hki.symm
    · intro j hj
      rcases get?_set_cases _ _ _ _ _ hj with ⟨_, hx⟩ | ⟨_, hx⟩
      · exact absurd hx (by simp)
      · exact absurd (Or.inr hx) (hno j)
  | hit i v h hv =>
    have honer : ∀ j, Owner
        { pcs := a.pcs.set i (PC.done v), lockHeld := false,
          inst := a.inst, initCount := a.initCount } j → False := by
      intro j hj
      rcases hj with hx | hx <;>
        rcases get?_set_cases _ _ _ _ _ hx with ⟨_, hpc⟩ | ⟨hne, hx2⟩ <;>
          first
            | exact PC.noConfusion hpc
            | exact hne (hi.owner_unique j i (Or.inl hx2) (Or.inl h))
            | exact hne (hi.owner_unique j i (Or.inr hx2) (Or.inl h))
    constructor
    · exact hi.count_inst
    · intro j w hj
      rcases get?_set_cases _ _ _ _ _ hj with ⟨_, hx⟩ | ⟨_, hx⟩
      · cases hx; exact hv
      · exact hi.done_inst j w hx
    · intro j hj
      exact absurd hj (fun hj2 => honer j hj2)
    · intro j k hj hk
      exact absurd hj (fun hj2 => honer j hj2)
    · intro j hj
      exact absurd (Or.inr hj) (fun hj2 => honer j hj2)
  | miss i h hv =>
    have key : ∀ m, Owner
        { pcs := a.pcs.set i PC.initing, lockHeld := a.lockHeld,
          inst := a.inst, initCount := a.initCount } m → m = i := by
      intro m hm
      rcases hm with hx | hx <;>
        rcases get?_set_cases _ _ _ _ _ hx with ⟨hm2, _⟩ | ⟨hne, hx2⟩ <;>
          first
            | exact hm2
            | exact hi.owner_unique m i (Or.inl hx2) (Or.inl h)
            | exact hi.owner_unique m i (Or.inr hx2) (Or.inl h)
    constructor
    · exact hi.count_inst
    · intro j w hj
      rcases get?_set_cases _ _ _ _ _ hj with ⟨_, hx⟩ | ⟨_, hx⟩
      · exact absurd hx (by simp)
      · exact hi.done_inst j w hx
    · intro j _
      exact hi.owner_lock i (Or.inl h)
    · intro j k hj hk
      exact (key j hj).trans (key k hk).symm
    · intro j _
      exact hv
  | create i h =>
    have hnone := hi.initing_none i h
    have hcount : a.initCount = 0 := by
      rw [hi.count_inst, hnone]
      rfl
    have honer : ∀ j, Owner
        { pcs := a.pcs.set i (PC.done i), lockHeld := false,
          inst := some i, initCount := a.initCount + 1 } j → False := by
      intro j hj
      rcases hj with hx | hx <;>
        rcases get?_set_cases _ _ _ _ _ hx with ⟨_, hpc⟩ | ⟨hne, hx2⟩ <;>
          first
            | exact PC.noConfusion hpc
            | exact hne (hi.owner_unique j i (Or.inl hx2) (Or.inr h))
            | exact hne (hi.owner_unique j i (Or.inr hx2) (Or.inr h))
    constructor
    · simp [hcount]
    · intro j w hj
      rcases get?_set_cases _ _ _ _ _ hj with ⟨_, hx⟩ | ⟨_, hx⟩
      · cases hx; rfl
      · have hd := hi.done_inst j w hx
        rw [hnone] at hd
        exact Option.noConfusion hd
    · intro j hj
      exact absurd hj (fun hj2 => honer j hj2)
    · intro j k hj hk
      exact absurd hj (fun hj2 => honer j hj2)
    · intro j hj
      exact absurd (Or.inr hj) (fun hj2 => honer j hj2)

theorem inv_reaches {a b : Config} (hi : Inv a) (hr : Reaches a b) : Inv b := by
  induction hr with
  | refl => exact hi
  | tail x y hxy hstep ih => exact inv_step ih hstep

end Singleton

/-! ### Claim theorems -/

/-- C6: for any number of concurrent first-time callers of
`LLMService.get_instance`, interleaved in any order under the class-level
asyncio lock, every caller that has returned obtained the same singleton
instance and the one-time initialization ran exactly once; a caller
arriving while another is initializing blocks on the lock and reuses the
already-constructed instance. -/
theorem get_instance_singleton (n : Nat) (c : Singleton.Config)
    (hr : Singleton.Reaches (Singleton.start n) c)
    (hdone : ∀ p ∈ c.pcs, ∃ v, p = Singleton.PC.done v)
    (hne : c.pcs ≠ []) :
    c.initCount = 1 ∧
      ∃ v, c.inst = some v ∧ ∀ p ∈ c.pcs, p = Singleton.PC.done v := by
  have hinv := Singleton.inv_reaches (Singleton.inv_start n) hr
  obtain ⟨p, hp⟩ : ∃ p, c.pcs.get? 0 = some p := by
    cases hc : c.pcs with
    | nil => exact absurd hc hne
    | cons q qs => exact ⟨q, by simp [hc]⟩
  obtain ⟨v, hv⟩ := hdone p (List.get?_mem hp)
  subst hv
  have hinst := hinv.done_inst 0 v hp
  refine ⟨?_, v, hinst, ?_⟩
  · rw [hinv.count_inst, hinst]
    rfl
  · intro q hq
    obtain ⟨w, hw⟩ := hdone q hq
    subst hw
    obtain ⟨j, hj⟩ := List.mem_iff_get?.mp hq
    have hjw := hinv.done_inst j w hj
    rw [hinst] at hjw
    cases hjw
    rfl

/-- C1: in `TopicTagger.process`, a topic of the prompt mapping is added to
the identified-topic list iff the sanitized, trimmed, lower-cased LLM
response equals exactly the literal string `"true"`; any other sanitized
content classifies as not relevant and is never raised as an error (the
result is still ACCEPTED). -/
theorem topic_tagged_iff_true (deps : TaggerDeps) (post : Post)
    (topic : String) (tmpl : Template) (prompt raw : String)
    (hm : deps.get_topic_prompts = Except.ok [(topic, tmpl)])
    (hp : tmpl post.content = Except.ok prompt)
    (hr : deps.query_llm prompt = Except.ok raw)
    (hq : quoteMatch deps.get_post deps.nuance_account_id post = false) :
    (process deps post).status = ProcessingStatus.ACCEPTED ∧
      (topic ∈ (process deps post).output.topics ↔
        pyLowerList (pyStripList (strip_thinking raw).data) = "true".data) := by
  have hl : tagTopics deps.query_llm post.content [(topic, tmpl)] =
      Except.ok (if isRelevant raw then [topic] else []) := by
    by_cases h : isRelevant raw <;>
      simp [tagTopics, hp, hr, except_ok_bind, h]
  have hb := processBody_eq deps post _ _ hm hl
  constructor
  · simp [process, hb]
  · rw [show (process deps post).output.topics =
        specialTopics deps.get_post deps.nuance_account_id post
          (if isRelevant raw then [topic] else []) by simp [process, hb]]
    rw [specialTopics_eq, hq]
    by_cases h : isRelevant raw
    · have h2 : pyLowerList (pyStripList (strip_thinking raw).data) = "true".data := by
        simpa [isRelevant] using h
      simp [h, h2]
    · have h2 : ¬ pyLowerList (pyStripList (strip_thinking raw).data) = "true".data := by
        simpa [isRelevant] using h
      simp [h, h2]

/-- C1 witness: a single-topic mapping whose LLM answers `" True\n"` tags
the topic and returns ACCEPTED. -/
theorem topic_tagged_iff_true_witness :
    (process oneTopicDeps plainPost).status = ProcessingStatus.ACCEPTED ∧
      ("science" ∈ (process oneTopicDeps plainPost).output.topics ↔
        pyLowerList (pyStripList (strip_thinking " True\n").data) = "true".data) :=
  topic_tagged_iff_true oneTopicDeps plainPost "science"
    (fun c => Except.ok ("about science? " ++ c))
    "about science? hello world" " True\n" rfl rfl rfl rfl

/-- C2 counterexample: `strip_reasoning` is not idempotent.  Deleting the
delimited section of `"<thi<think>x</think>nk>abc</think>"` splices the
surrounding text into the fresh marker pair `"<think>abc</think>"`, which a
second application deletes entirely. -/
theorem strip_thinking_not_idempotent :
    strip_thinking (strip_thinking "<thi<think>x</think>nk>abc</think>") ≠
      strip_thinking "<thi<think>x</think>nk>abc</think>" := by decide

/-- C2 (amended): the sanitizer is idempotent on every input whose
sanitized output contains no removable delimited section, i.e. whenever
deleting the delimited sections does not splice the surrounding text into
a new marker pair; in general a second application can differ. -/
theorem strip_thinking_idem_of_stable (x : String)
    (h : removeThink (strip_thinking x).data = (strip_thinking x).data) :
    strip_thinking (strip_thinking x) = strip_thinking x := by
  show String.mk (pyStripList (removeThink (strip_thinking x).data)) =
    strip_thinking x
  rw [h]
  show String.mk (pyStripList (pyStripList (removeThink x.data))) =
    strip_thinking x
  rw [pyStripList_idem]
  rfl

/-- C2 amended witness: an input with one delimited section whose removal
creates no new marker pair. -/
theorem strip_thinking_idem_of_stable_witness :
    removeThink (strip_thinking " <think>a</think> done ").data =
        (strip_thinking " <think>a</think> done ").data ∧
      strip_thinking (strip_thinking " <think>a</think> done ") =
        strip_thinking " <think>a</think> done " :=
  ⟨by decide, strip_thinking_idem_of_stable " <think>a</think> done " (by decide)⟩

/-- C7: `strip_reasoning` removes every delimited section (markers
included, across multiple occurrences, non-greedy, spanning newlines) and
trims the remainder: concretely `"<think>ignored</think>true"` sanitizes
to `"true"`, a two-section input spanning newlines loses both sections,
and every input containing neither marker is merely stripped of
surrounding whitespace. -/
theorem strip_thinking_spec :
    strip_thinking "<think>ignored</think>true" = "true" ∧
      strip_thinking "a<think>x\ny</think>b<think>z</think>c" = "abc" ∧
      ∀ x : String, containsSub openTag x.data = false →
        containsSub closeTag x.data = false →
        strip_thinking x = pyStrip x := by
  refine ⟨by decide, by decide, ?_⟩
  intro x hopen _
  show String.mk (pyStripList (removeThink x.data)) = pyStrip x
  rw [removeThink_of_not_contains x.data hopen]
  rfl

/-- C7 witness: a marker-free input is just stripped. -/
theorem strip_thinking_spec_witness :
    containsSub openTag "  some text  ".data = false ∧
      containsSub closeTag "  some text  ".data = false ∧
      strip_thinking "  some text  " = pyStrip "  some text  " :=
  ⟨by decide, by decide,
    strip_thinking_spec.2.2 "  some text  " (by decide) (by decide)⟩

/-- C3: on the ACCEPTED path the assigned topic list follows the prompt
mapping's iteration order restricted to the topics classified relevant,
with the sentinel topic appended last iff the quote-relationship special
case matches. -/
theorem topics_follow_mapping_order (deps : TaggerDeps) (post : Post)
    (prompts : List (String × Template)) (ts : List String)
    (hm : deps.get_topic_prompts = Except.ok prompts)
    (hl : tagTopics deps.query_llm post.content prompts = Except.ok ts) :
    (process deps post).status = ProcessingStatus.ACCEPTED ∧
      ts = relevantTopics deps.query_llm post.content prompts ∧
      (process deps post).output.topics =
        relevantTopics deps.query_llm post.content prompts ++
          (if quoteMatch deps.get_post deps.nuance_account_id post then
            ["nuance_sharing"] else []) := by
  have hts := tagTopics_ok _ _ _ _ hl
  have hb := processBody_eq deps post _ _ hm hl
  refine ⟨by simp [process, hb], hts, ?_⟩
  simp [process, hb, specialTopics_eq, ← hts]

/-- C3 witness: mapping A relevant, B not, C relevant yields the list
`["A", "C"]` in that order. -/
theorem topics_follow_mapping_order_witness :
    (process threeTopicDeps plainPost).status = ProcessingStatus.ACCEPTED ∧
      (process threeTopicDeps plainPost).output.topics = ["A", "C"] := by
  have h := topics_follow_mapping_order threeTopicDeps plainPost _ ["A", "C"]
    rfl rfl
  exact ⟨h.1, by rw [h.2.2]; decide⟩

/-- C4: if the discovery lookup raises (or the quote-related fields are
missing) during the structural special case, `process` still returns
ACCEPTED with exactly the topics determined by the per-topic loop and no
sentinel topic appended. -/
theorem special_case_isolated (deps : TaggerDeps) (post : Post)
    (prompts : List (String × Template)) (ts : List String)
    (hm : deps.get_topic_prompts = Except.ok prompts)
    (hl : tagTopics deps.query_llm post.content prompts = Except.ok ts)
    (hfail : (∀ s, ∃ e, deps.get_post s = Except.error e) ∨
      post.extra_data.quoted_status_id = none ∨
      post.extra_data.is_quote_tweet = none) :
    (process deps post).status = ProcessingStatus.ACCEPTED ∧
      (process deps post).output.topics = ts := by
  have hq : quoteMatch deps.get_post deps.nuance_account_id post = false := by
    unfold quoteMatch
    rcases hfail with hf | hf | hf
    · cases hqs : post.extra_data.quoted_status_id with
      | none => simp [hqs]
      | some qid =>
        obtain ⟨e, he⟩ := hf qid
        simp [hqs, he]
    · simp [hf]
    · simp [hf]
  have hb := processBody_eq deps post _ _ hm hl
  refine ⟨by simp [process, hb], ?_⟩
  simp [process, hb, specialTopics_eq, hq]

/-- C4 witness: a quote tweet whose lookup always fails still yields
ACCEPTED with the loop's topics. -/
theorem special_case_isolated_witness :
    (process oneTopicDeps quotePost).status = ProcessingStatus.ACCEPTED ∧
      (process oneTopicDeps quotePost).output.topics = ["science"] :=
  special_case_isolated oneTopicDeps quotePost _ ["science"] rfl rfl
    (Or.inl fun _ => ⟨"no network", rfl⟩)

/-- C5: any exception escaping the orchestration body (for example a
failing prompt-mapping fetch) is converted at the top level into a single
ERROR result carrying the original post and a non-empty reason; it never
propagates. -/
theorem error_result_on_exception (deps : TaggerDeps) (post : Post)
    (e : String) (hb : processBody deps post = Except.error e) :
    (process deps post).status = ProcessingStatus.ERROR ∧
      (process deps post).output = post ∧
      ∃ r, (process deps post).reason = some r ∧ r ≠ "" := by
  refine ⟨by simp [process, hb], by simp [process, hb],
    "Error tagging topics: " ++ e, by simp [process, hb], ?_⟩
  intro hcontra
  have hlen := congrArg String.length hcontra
  rw [String.length_append] at hlen
  simp at hlen
  exact absurd hlen.1 (by decide)

/-- C5 witness: a failing prompt-mapping fetch yields one ERROR result
with a non-empty reason and the original post. -/
theorem error_result_on_exception_witness :
    (process failingDeps plainPost).status = ProcessingStatus.ERROR ∧
      (process failingDeps plainPost).output = plainPost ∧
      ∃ r, (process failingDeps plainPost).reason = some r ∧ r ≠ "" :=
  error_result_on_exception failingDeps plainPost "constitution fetch failed" rfl

/-- C8: with an empty prompt mapping and no matching quote-relationship,
`process` returns ACCEPTED with an empty topic list, and the result does
not depend on the LLM collaborator at all (zero LLM calls); zero topics is
never converted into an ERROR result. -/
theorem empty_mapping_accepted (deps : TaggerDeps) (post : Post)
    (hm : deps.get_topic_prompts = Except.ok [])
    (hq : quoteMatch deps.get_post deps.nuance_account_id post = false) :
    (process deps post).status = ProcessingStatus.ACCEPTED ∧
      (process deps post).output.topics = [] ∧
      ∀ llm2, process { deps with query_llm := llm2 } post = process deps post := by
  have hb := processBody_eq deps post [] [] hm rfl
  refine ⟨by simp [process, hb], by simp [process, hb, specialTopics_eq, hq], ?_⟩
  intro llm2
  have hb2 := processBody_eq { deps with query_llm := llm2 } post [] [] hm rfl
  simp [process, hb, hb2]

/-- C8 witness: empty mapping, non-Twitter post; replacing the LLM by an
always-raising one does not change the result. -/
theorem empty_mapping_accepted_witness :
    (process emptyDeps plainPost).status = ProcessingStatus.ACCEPTED ∧
      (process emptyDeps plainPost).output.topics = [] ∧
      process { emptyDeps with query_llm := fun _ => Except.error "boom" } plainPost =
        process emptyDeps plainPost := by
  have h := empty_mapping_accepted emptyDeps plainPost rfl rfl
  exact ⟨h.1, h.2.1, h.2.2 _⟩

/-- C9: `LLMService.query` resolves an omitted model argument to the
default model identifier, returns exactly the content of the first
completion choice of the response body, and propagates any failure of the
HTTP retry client unchanged, with no retry logic of its own. -/
theorem query_contract (http : LLMPayload → Except String LLMData)
    (model_name prompt : String) (max_tokens : Nat) (temperature top_p : Rat) :
    (query http model_name prompt none max_tokens temperature top_p =
        query http model_name prompt (some model_name) max_tokens temperature top_p) ∧
      (∀ e, http (mkPayload model_name prompt max_tokens temperature top_p) =
          Except.error e →
        query http model_name prompt none max_tokens temperature top_p =
          Except.error e) ∧
      (∀ data choice rest,
        http (mkPayload model_name prompt max_tokens temperature top_p) =
          Except.ok data →
        data.choices = choice :: rest →
        query http model_name prompt none max_tokens temperature top_p =
          Except.ok choice.message.content) := by
  refine ⟨?_, ?_, ?_⟩
  · by_cases h : model_name = "" <;> simp [query, resolveModel, h]
  · intro e he
    simp [query, call_model, resolveModel, he, except_error_bind]
  · intro data choice rest hd hc
    simp [query, call_model, resolveModel, hd, except_ok_bind, hc]

/-- C9 witness: a one-choice response body projects to its content, and a
terminal HTTP failure surfaces unchanged. -/
theorem query_contract_witness :
    query okHttp "m" "p" none 3 0 1 = Except.ok "hi" ∧
      query errHttp "m" "p" none 3 0 1 = Except.error "boom" :=
  ⟨(query_contract okHttp "m" "p" 3 0 1).2.2 _ _ [] rfl rfl,
    (query_contract errHttp "m" "p" 3 0 1).2.1 "boom" rfl⟩

/-- C10: whenever `process` returns an ERROR result, the post's topics
field is unchanged from its value at entry: the assignment to `topics`
happens only on the ACCEPTED path. -/
theorem error_leaves_topics_unchanged (deps : TaggerDeps) (post : Post)
    (h : (process deps post).status = ProcessingStatus.ERROR) :
    (process deps post).output.topics = post.topics := by
  cases hb : processBody deps post with
  | ok r =>
    have hs := processBody_status deps post r hb
    simp [process, hb, hs] at h
  | error e => simp [process, hb]

/-- C10 witness: an ERROR result (failing mapping fetch) leaves the
entry-time topics intact. -/
theorem error_leaves_topics_unchanged_witness :
    (process failingDeps plainPost).output.topics = plainPost.topics :=
  error_leaves_topics_unchanged failingDeps plainPost rfl

/-- C6 witness: an explicit interleaving of two first-time callers (caller
0 acquires, observes no instance, initializes; caller 1 then acquires and
reuses it) ends with both callers holding the same instance and a single
initialization. -/
theorem get_instance_singleton_witness :
    twoCallerFinal.initCount = 1 ∧
      ∃ v, twoCallerFinal.inst = some v ∧
        ∀ p ∈ twoCallerFinal.pcs, p = Singleton.PC.done v := by
  have h1 : Singleton.Reaches (Singleton.start 2)
      { pcs := [Singleton.PC.locked, Singleton.PC.start], lockHeld := true,
        inst := none, initCount := 0 } :=
    .tail _ _ _ (.refl _) (Singleton.Step.acquire _ 0 rfl rfl)
  have h2 : Singleton.Reaches (Singleton.start 2)
      { pcs := [Singleton.PC.initing, Singleton.PC.start], lockHeld := true,
        inst := none, initCount := 0 } :=
    .tail _ _ _ h1 (Singleton.Step.miss _ 0 rfl rfl)
  have h3 : Singleton.Reaches (Singleton.start 2)
      { pcs := [Singleton.PC.done 0, Singleton.PC.start], lockHeld := false,
        inst := some 0, initCount := 1 } :=
    .tail _ _ _ h2 (Singleton.Step.create _ 0 rfl)
  have h4 : Singleton.Reaches (Singleton.start 2)
      { pcs := [Singleton.PC.done 0, Singleton.PC.locked], lockHeld := true,
        inst := some 0, initCount := 1 } :=
    .tail _ _ _ h3 (Singleton.Step.acquire _ 1 rfl rfl)
  have h5 : Singleton.Reaches (Singleton.start 2) twoCallerFinal :=
    .tail _ _ _ h4 (Singleton.Step.hit _ 1 0 rfl rfl)
  refine get_instance_singleton 2 twoCallerFinal h5 ?_ (by simp [twoCallerFinal])
  intro p hp
  simp [twoCallerFinal] at hp
  exact ⟨0, hp⟩
